import Mathlib

/-!
Verification development for the PoseCare frame-processing pipeline.

Shallow embedding of `posecare_core.py` (angle engine, EMA keypoint
stabilizer, rep-counting exercise state machines, form-quality scorers)
and `posecare_main.py` (subject selection).  Python floats are embedded
as rationals (`ℚ`); the only transcendental parts (`math.acos`, the
square roots feeding `np.linalg.norm` and `**0.5`) are embedded over `ℝ`
with `Real.arccos` / `Real.sqrt`.  Python `round` (round-half-to-even)
is embedded as `pyRound`.
-/

/-- Constants from `posecare_core.py` lines 11-23. -/
def KEYPT_MIN_CONF : ℚ := 35/100

def SQUAT_DOWN_MAX : ℚ := 120

def SQUAT_UP_MIN : ℚ := 165

def STS_SIT_MAX : ℚ := 120

def STS_STAND_MIN : ℚ := 165

def LR_UP_MAX : ℚ := 120

def LR_DOWN_MIN : ℚ := 165

/-- Debounce threshold `MIN_DWELL = 3` (frames). -/
def MIN_DWELL : ℕ := 3

/-- A 2-D point (one landmark), embedding a row of the 17x2 keypoint array. -/
abbrev Pt : Type := ℚ × ℚ

/-- `_valid_point` (`posecare_core.py` lines 32-33): both coordinates strictly
positive.  The `shape == (2,)` check is carried by the type `Pt`. -/
def _valid_point (p : Pt) : Prop := 0 < p.1 ∧ 0 < p.2

instance (p : Pt) : Decidable (_valid_point p) := by
  unfold _valid_point; infer_instance

/-- Componentwise vector subtraction, embedding `a - b` on 2-vectors. -/
def vsub (a b : Pt) : Pt := (a.1 - b.1, a.2 - b.2)

/-- Dot product `np.dot(v1, v2)` on 2-vectors. -/
def dot (v w : Pt) : ℚ := v.1 * w.1 + v.2 * w.2

/-- Euclidean norm `np.linalg.norm(v)` of a 2-vector, over `ℝ`. -/
noncomputable def vnorm (v : Pt) : ℝ := Real.sqrt ((dot v v : ℚ) : ℝ)

/-- `angle_3pt` (`posecare_core.py` lines 35-43): `None` on an invalid point
or a vector of norm `< 1e-6`, otherwise
`degrees(acos(clip(dot/(n1*n2), -1, 1)))`. -/
noncomputable def angle_3pt (a b c : Pt) : Option ℝ :=
  if _valid_point a ∧ _valid_point b ∧ _valid_point c then
    if vnorm (vsub a b) < 1/1000000 ∨ vnorm (vsub c b) < 1/1000000 then none
    else
      some (Real.arccos (max (-1) (min 1
        (((dot (vsub a b) (vsub c b) : ℚ) : ℝ) / (vnorm (vsub a b) * vnorm (vsub c b)))))
        * (180 / Real.pi))
  else none

/-- Mask step of `EMAStabilizer.update` (`posecare_core.py` lines 73-74):
a landmark whose confidence is below `KEYPT_MIN_CONF` becomes the
sentinel `(-1, -1)`. -/
def maskKps (kps : List Pt) (conf : List ℚ) : List Pt :=
  List.zipWith (fun p c => if c < KEYPT_MIN_CONF then ((-1 : ℚ), (-1 : ℚ)) else p) kps conf

/-- Per-joint smoothing step of `EMAStabilizer.update` (`posecare_core.py`
lines 81-90).  The displacement test `dist > 6.0` is embedded as the
equivalent squared comparison `dot d d > 36` (both sides are nonnegative). -/
def emaJoint (alphaFast alphaSlow : ℚ) (prev cur : Pt) : Pt :=
  if cur.1 ≤ 0 ∨ cur.2 ≤ 0 then ((-1 : ℚ), (-1 : ℚ))
  else if prev.1 ≤ 0 ∨ prev.2 ≤ 0 then cur
  else
    let alpha := if 36 < dot (vsub cur prev) (vsub cur prev) then alphaFast else alphaSlow
    ((1 - alpha) * prev.1 + alpha * cur.1, (1 - alpha) * prev.2 + alpha * cur.2)

/-- `EMAStabilizer.update` (`posecare_core.py` lines 64-92).  The first
component of the result is the stabilizer state after the call, the second
the returned value (`none` embeds Python `None`).  The malformed-shape
check returns `none` without touching the state; on the first successful
update the masked landmarks are stored and returned; afterwards each joint
is smoothed by `emaJoint` and the whole output is written back to state. -/
def EMAupdate (alphaFast alphaSlow : ℚ) (st : Option (List Pt))
    (kps : List Pt) (conf : List ℚ) : Option (List Pt) × Option (List Pt) :=
  if kps.length = 17 ∧ 17 ≤ conf.length then
    match st with
    | none => (some (maskKps kps conf), some (maskKps kps conf))
    | some prev =>
        (some (List.zipWith (emaJoint alphaFast alphaSlow) prev (maskKps kps conf)),
         some (List.zipWith (emaJoint alphaFast alphaSlow) prev (maskKps kps conf)))
  else (st, none)

/-- `RepCounter` (`posecare_core.py` lines 95-101). -/
structure RepCounter where
  exercise : String
  reps : ℕ
  state : String
  dwell : ℕ
  form_pct : ℤ
deriving DecidableEq

/-- `RepCounter.reset` (`posecare_core.py` lines 103-109). -/
def RepCounter.reset (rc : RepCounter) (ex : Option String) : RepCounter :=
  ⟨match ex with | some e => e | none => rc.exercise, 0, "", 0, 0⟩

/-- `_clamp01` (`posecare_core.py` lines 112-113). -/
def _clamp01 (x : ℚ) : ℚ := max 0 (min 1 x)

/-- Python 3 `round` to an integer (round half to even), as used by
`int(round(...))` in the form-quality functions. -/
def pyRound (q : ℚ) : ℤ :=
  if q - ⌊q⌋ < 1/2 then ⌊q⌋
  else if 1/2 < q - ⌊q⌋ then ⌊q⌋ + 1
  else if ⌊q⌋ % 2 = 0 then ⌊q⌋ else ⌊q⌋ + 1

/-- Per-knee score of `form_quality_squat` (`posecare_core.py` line 119). -/
def knee_score (a : ℚ) : ℚ := _clamp01 ((180 - a) / (180 - 90))

/-- `form_quality_squat` (`posecare_core.py` lines 115-121), over the knee
angle values `(Lk, Rk) = knee_angles(kps)`. -/
def form_quality_squat (Lk Rk : Option ℚ) : Option ℤ :=
  match Lk, Rk with
  | some l, some r => some (pyRound (100 * (1/2 * (knee_score l + knee_score r))))
  | _, _ => none

/-- Per-knee extension score of `form_quality_sts` (`posecare_core.py` line 127). -/
def ext_score (a : ℚ) : ℚ := _clamp01 ((a - 120) / (180 - 120))

/-- `form_quality_sts` (`posecare_core.py` lines 123-129). -/
def form_quality_sts (Lk Rk : Option ℚ) : Option ℤ :=
  match Lk, Rk with
  | some l, some r => some (pyRound (100 * (1/2 * (ext_score l + ext_score r))))
  | _, _ => none

/-- `form_quality_legraise` (`posecare_core.py` lines 131-139): mean of the
per-side scores over whichever hip angles are available. -/
def form_quality_legraise (Lh Rh : Option ℚ) : Option ℤ :=
  match Lh, Rh with
  | none, none => none
  | some l, none => some (pyRound (100 * _clamp01 ((180 - l) / (180 - 90))))
  | none, some r => some (pyRound (100 * _clamp01 ((180 - r) / (180 - 90))))
  | some l, some r =>
      some (pyRound (100 * (1/2 * (_clamp01 ((180 - l) / (180 - 90)) + _clamp01 ((180 - r) / (180 - 90))))))

/-- `logic_squat` (`posecare_core.py` lines 142-161), over the knee angle
values `(Lk, Rk) = knee_angles(kps)`; `none` embeds an absent angle. -/
def logic_squat (Lk Rk : Option ℚ) (rc : RepCounter) : RepCounter :=
  match Lk, Rk with
  | some l, some r =>
    let down : Bool := decide (l < SQUAT_DOWN_MAX ∧ r < SQUAT_DOWN_MAX)
    let up : Bool := decide (SQUAT_UP_MIN < l ∧ SQUAT_UP_MIN < r)
    let rc1 :=
      if rc.state = "" then { rc with state := "up", dwell := 0 }
      else if rc.state = "up" then
        let d := if down then rc.dwell + 1 else 0
        if down && decide (MIN_DWELL ≤ d) then { rc with state := "down", dwell := 0 }
        else { rc with dwell := d }
      else if rc.state = "down" then
        let d := if up then rc.dwell + 1 else 0
        if up && decide (MIN_DWELL ≤ d) then
          { rc with reps := rc.reps + 1, state := "up", dwell := 0 }
        else { rc with dwell := d }
      else rc
    match form_quality_squat (some l) (some r) with
    | some q => { rc1 with form_pct := q }
    | none => rc1
  | _, _ => rc

/-- `logic_sts` (`posecare_core.py` lines 163-182), over the knee angle
values; the rep is counted on the sit-to-stand transition. -/
def logic_sts (Lk Rk : Option ℚ) (rc : RepCounter) : RepCounter :=
  match Lk, Rk with
  | some l, some r =>
    let sit : Bool := decide (l < STS_SIT_MAX ∧ r < STS_SIT_MAX)
    let stand : Bool := decide (STS_STAND_MIN < l ∧ STS_STAND_MIN < r)
    let rc1 :=
      if rc.state = "" then { rc with state := "sit", dwell := 0 }
      else if rc.state = "sit" then
        let d := if stand then rc.dwell + 1 else 0
        if stand && decide (MIN_DWELL ≤ d) then
          { rc with reps := rc.reps + 1, state := "stand", dwell := 0 }
        else { rc with dwell := d }
      else if rc.state = "stand" then
        let d := if sit then rc.dwell + 1 else 0
        if sit && decide (MIN_DWELL ≤ d) then { rc with state := "sit", dwell := 0 }
        else { rc with dwell := d }
      else rc
    match form_quality_sts (some l) (some r) with
    | some q => { rc1 with form_pct := q }
    | none => rc1
  | _, _ => rc

/-- The `any_up` accumulator of `logic_leg_raise` (`posecare_core.py`
lines 189-193): an absent side contributes `false`. -/
def lr_any_up (Lh Rh : Option ℚ) : Bool :=
  (match Lh with | some l => decide (l < LR_UP_MAX) | none => false) ||
  (match Rh with | some r => decide (r < LR_UP_MAX) | none => false)

/-- The `both_down` accumulator of `logic_leg_raise` (`posecare_core.py`
lines 189-193): an absent side contributes `true`. -/
def lr_both_down (Lh Rh : Option ℚ) : Bool :=
  (match Lh with | some l => decide (LR_DOWN_MIN < l) | none => true) &&
  (match Rh with | some r => decide (LR_DOWN_MIN < r) | none => true)

/-- `logic_leg_raise` (`posecare_core.py` lines 184-208), over the hip angle
values `(Lh, Rh)`; an absent side contributes `false` to `any_up` and
`true` to `both_down`. -/
def logic_leg_raise (Lh Rh : Option ℚ) (rc : RepCounter) : RepCounter :=
  match Lh, Rh with
  | none, none => rc
  | _, _ =>
    let anyUp : Bool := lr_any_up Lh Rh
    let bothDown : Bool := lr_both_down Lh Rh
    let rc1 :=
      if rc.state = "" then { rc with state := "down", dwell := 0 }
      else if rc.state = "down" then
        let d := if anyUp then rc.dwell + 1 else 0
        if anyUp && decide (MIN_DWELL ≤ d) then { rc with state := "up", dwell := 0 }
        else { rc with dwell := d }
      else if rc.state = "up" then
        let d := if bothDown then rc.dwell + 1 else 0
        if bothDown && decide (MIN_DWELL ≤ d) then
          { rc with reps := rc.reps + 1, state := "down", dwell := 0 }
        else { rc with dwell := d }
      else rc
    match form_quality_legraise Lh Rh with
    | some q => { rc1 with form_pct := q }
    | none => rc1

/-- One squat frame with valid knee measurements `(x.1, x.2)`. -/
def stepSquat (x : ℚ × ℚ) (rc : RepCounter) : RepCounter :=
  logic_squat (some x.1) (some x.2) rc

/-- A sequence of valid-measurement squat frames. -/
def runSquat (rc : RepCounter) (l : List (ℚ × ℚ)) : RepCounter :=
  l.foldl (fun r x => stepSquat x r) rc

/-- One sit-to-stand frame with valid knee measurements. -/
def stepSts (x : ℚ × ℚ) (rc : RepCounter) : RepCounter :=
  logic_sts (some x.1) (some x.2) rc

/-- A sequence of valid-measurement sit-to-stand frames. -/
def runSts (rc : RepCounter) (l : List (ℚ × ℚ)) : RepCounter :=
  l.foldl (fun r x => stepSts x r) rc

/-- One leg-raise frame with hip measurements `(x.1, x.2)`, either of
which may be absent. -/
def stepLR (x : Option ℚ × Option ℚ) (rc : RepCounter) : RepCounter :=
  logic_leg_raise x.1 x.2 rc

/-- A sequence of leg-raise frames. -/
def runLR (rc : RepCounter) (l : List (Option ℚ × Option ℚ)) : RepCounter :=
  l.foldl (fun r x => stepLR x r) rc

/-- A leg-raise frame is valid when at least one hip angle is present. -/
def lrValid (x : Option ℚ × Option ℚ) : Prop := x.1 ≠ none ∨ x.2 ≠ none

/-- The condition for leaving the current sit-to-stand phase (the
hysteresis condition checked by `logic_sts`): from "sit" both knees above
`STS_STAND_MIN`, from "stand" both knees below `STS_SIT_MAX`. -/
def stsLeave (st : String) (x : ℚ × ℚ) : Bool :=
  if st = "sit" then decide (STS_STAND_MIN < x.1 ∧ STS_STAND_MIN < x.2)
  else if st = "stand" then decide (x.1 < STS_SIT_MAX ∧ x.2 < STS_SIT_MAX)
  else false

/-- The condition for leaving the current leg-raise phase (the hysteresis
condition checked by `logic_leg_raise`): from "down" any available hip
angle below `LR_UP_MAX`, from "up" all available hip angles above
`LR_DOWN_MIN`. -/
def lrLeave (st : String) (x : Option ℚ × Option ℚ) : Bool :=
  if st = "down" then lr_any_up x.1 x.2
  else if st = "up" then lr_both_down x.1 x.2
  else false

/-- The condition for leaving the current squat phase (the hysteresis
condition checked by `logic_squat`): from "up" both knees below
`SQUAT_DOWN_MAX`, from "down" both knees above `SQUAT_UP_MIN`. -/
def squatLeave (st : String) (x : ℚ × ℚ) : Bool :=
  if st = "up" then decide (x.1 < SQUAT_DOWN_MAX ∧ x.2 < SQUAT_DOWN_MAX)
  else if st = "down" then decide (SQUAT_UP_MIN < x.1 ∧ SQUAT_UP_MIN < x.2)
  else false

/-- Length of the longest prefix of `l` all of whose elements satisfy `P`. -/
def leadCount (P : α → Bool) : List α → ℕ
  | [] => 0
  | x :: xs => if P x then leadCount P xs + 1 else 0

/-- Length of the longest suffix of `l` all of whose elements satisfy `P`:
the number of trailing consecutive frames on which a condition holds. -/
def trailCount (P : α → Bool) (l : List α) : ℕ := leadCount P l.reverse

/-- An axis-aligned bounding box `(x1, y1, x2, y2)`. -/
abbrev Box : Type := ℚ × ℚ × ℚ × ℚ

/-- `_iou` (`posecare_main.py` lines 55-65); the first argument is the
possibly-absent previous-frame box. -/
def _iou (a : Option Box) (b : Box) : ℚ :=
  match a with
  | none => 0
  | some (ax1, ay1, ax2, ay2) =>
    match b with
    | (bx1, by1, bx2, by2) =>
      let iw := max 0 (min ax2 bx2 - max ax1 bx1)
      let ih := max 0 (min ay2 by2 - max ay1 by1)
      let inter := iw * ih
      let areaA := max 0 ((ax2 - ax1) * (ay2 - ay1))
      let areaB := max 0 ((bx2 - bx1) * (by2 - by1))
      inter / (areaA + areaB - inter + 1/1000000)

/-- `_bbox_center_bonus` (`posecare_main.py` lines 48-53). -/
noncomputable def _bbox_center_bonus (W H : ℚ) (b : Box) : ℝ :=
  match b with
  | (x1, y1, x2, y2) =>
    let cx := 1/2 * (x1 + x2) / max 1 W
    let cy := 1/2 * (y1 + y2) / max 1 H
    let dx := cx - 1/2
    let dy := cy - 1/2
    max 0 ((15/100 : ℝ) - Real.sqrt ((dx * dx + dy * dy : ℚ) : ℝ))

/-- One candidate person: its 17 keypoint confidences and bounding box. -/
structure Person where
  conf : List ℚ
  box : Box

/-- The per-candidate selection score of `pick_best_person`
(`posecare_main.py` lines 80-82): mean confidence plus center bonus plus
`0.20` times IoU with the previous box. -/
noncomputable def person_score (W H : ℚ) (prev : Option Box) (p : Person) : ℝ :=
  ((p.conf.sum / p.conf.length : ℚ) : ℝ) + _bbox_center_bonus W H p.box
    + (1/5 : ℝ) * ((_iou prev p.box : ℚ) : ℝ)

/-- The selection loop of `pick_best_person` (`posecare_main.py` lines
77-84): the running best is replaced only on a strictly greater score. -/
noncomputable def pickAux (W H : ℚ) (prev : Option Box) :
    List Person → ℕ → Option ℕ → ℝ → Option ℕ
  | [], _, bi, _ => bi
  | p :: ps, i, bi, bs =>
    if bs < person_score W H prev p then
      pickAux W H prev ps (i + 1) (some i) (person_score W H prev p)
    else pickAux W H prev ps (i + 1) bi bs

/-- `pick_best_person` (`posecare_main.py` lines 67-90), restricted to the
index-selection logic: initial best score `-1e9`, initial best index
`None`. -/
noncomputable def pick_best_person (W H : ℚ) (prev : Option Box) (ps : List Person) : Option ℕ :=
  pickAux W H prev ps 0 none (-1000000000)

/-- Equation form of `trailCount` under appending one frame. -/
theorem trailCount_concat (P : α → Bool) (l : List α) (x : α) :
    trailCount P (l ++ [x]) = if P x then trailCount P l + 1 else 0 := by
  simp only [trailCount, List.reverse_append, List.reverse_singleton, List.singleton_append,
    leadCount]

/-- A predicate that holds nowhere has no trailing run. -/
theorem trailCount_of_false (P : α → Bool) (h : ∀ x, P x = false) (l : List α) :
    trailCount P l = 0 := by
  unfold trailCount
  induction l.reverse with
  | nil => rfl
  | cons y ys ih => simp [leadCount, h]

/-- Unfolding `runSquat` over an appended frame. -/
theorem runSquat_concat (rc : RepCounter) (l : List (ℚ × ℚ)) (x : ℚ × ℚ) :
    runSquat rc (l ++ [x]) = stepSquat x (runSquat rc l) := by
  simp [runSquat]

/-- Case analysis of one squat step: the reps, phase and dwell fields after
`stepSquat` as a function of the fields before it. -/
theorem stepSquat_cases (x : ℚ × ℚ) (rc : RepCounter) :
    ((stepSquat x rc).reps, (stepSquat x rc).state, (stepSquat x rc).dwell) =
      if rc.state = "" then (rc.reps, "up", 0)
      else if rc.state = "up" then
        if squatLeave "up" x then
          if MIN_DWELL ≤ rc.dwell + 1 then (rc.reps, "down", 0)
          else (rc.reps, "up", rc.dwell + 1)
        else (rc.reps, "up", 0)
      else if rc.state = "down" then
        if squatLeave "down" x then
          if MIN_DWELL ≤ rc.dwell + 1 then (rc.reps + 1, "up", 0)
          else (rc.reps, "down", rc.dwell + 1)
        else (rc.reps, "down", 0)
      else (rc.reps, rc.state, rc.dwell) := by
  by_cases h1 : rc.state = "" <;>
    by_cases h2 : rc.state = "up" <;>
    by_cases h3 : rc.state = "down" <;>
    by_cases hd : (x.1 < SQUAT_DOWN_MAX ∧ x.2 < SQUAT_DOWN_MAX) <;>
    by_cases hu : (SQUAT_UP_MIN < x.1 ∧ SQUAT_UP_MIN < x.2) <;>
    by_cases hm : MIN_DWELL ≤ rc.dwell + 1 <;>
    simp [stepSquat, logic_squat, squatLeave, form_quality_squat, h1, h2, h3, hd, hu, hm]

/-- Dwell-soundness invariant of the squat machine: starting from a state
with dwell 0, after any sequence of valid frames the dwell counter never
exceeds the number of trailing consecutive frames satisfying the
leave-condition of the current phase. -/
theorem squat_dwell_le_trail (rc : RepCounter) (h0 : rc.dwell = 0) (l : List (ℚ × ℚ)) :
    (runSquat rc l).dwell ≤ trailCount (squatLeave (runSquat rc l).state) l := by
  induction l using List.reverseRecOn with
  | nil => simpa [runSquat, trailCount, leadCount] using h0.le
  | append_singleton l x ih =>
    rw [runSquat_concat]
    have hc := stepSquat_cases x (runSquat rc l)
    by_cases h1 : (runSquat rc l).state = ""
    · rw [if_pos h1] at hc
      simp only [Prod.mk.injEq] at hc
      omega
    · rw [if_neg h1] at hc
      by_cases h2 : (runSquat rc l).state = "up"
      · rw [if_pos h2] at hc
        by_cases hL : squatLeave "up" x
        · rw [if_pos hL] at hc
          by_cases hm : MIN_DWELL ≤ (runSquat rc l).dwell + 1
          · rw [if_pos hm] at hc
            simp only [Prod.mk.injEq] at hc
            omega
          · rw [if_neg hm] at hc
            simp only [Prod.mk.injEq] at hc
            rw [h2] at ih
            rw [hc.2.1, hc.2.2, trailCount_concat, if_pos hL]
            omega
        · rw [if_neg hL] at hc
          simp only [Prod.mk.injEq] at hc
          omega
      · rw [if_neg h2] at hc
        by_cases h3 : (runSquat rc l).state = "down"
        · rw [if_pos h3] at hc
          by_cases hL : squatLeave "down" x
          · rw [if_pos hL] at hc
            by_cases hm : MIN_DWELL ≤ (runSquat rc l).dwell + 1
            · rw [if_pos hm] at hc
              simp only [Prod.mk.injEq] at hc
              omega
            · rw [if_neg hm] at hc
              simp only [Prod.mk.injEq] at hc
              rw [h3] at ih
              rw [hc.2.1, hc.2.2, trailCount_concat, if_pos hL]
              omega
          · rw [if_neg hL] at hc
            simp only [Prod.mk.injEq] at hc
            omega
        · rw [if_neg h3] at hc
          simp only [Prod.mk.injEq] at hc
          have hfalse : ∀ y, squatLeave (runSquat rc l).state y = false := by
            intro y
            unfold squatLeave
            rw [if_neg h2, if_neg h3]
          have ht : trailCount (squatLeave (runSquat rc l).state) l = 0 :=
            trailCount_of_false _ hfalse l
          rw [hc.2.1, hc.2.2]
          omega

/-- C1: for the squat state machine with dwell threshold 3, from a freshly
reset counter, the knee-angle sequence (both legs equal)
[170,170,170,100,100,100,170,170,170] yields exactly 1 counted rep and ends
in phase "up"; and the initial phase assignment on the first valid frame
(from the reset phase "") awards no rep and assigns phase "up". -/
theorem C1_squat_sequence :
    (runSquat ⟨"squat", 0, "", 0, 0⟩
      [(170,170),(170,170),(170,170),(100,100),(100,100),(100,100),
       (170,170),(170,170),(170,170)]).reps = 1
    ∧ (runSquat ⟨"squat", 0, "", 0, 0⟩
      [(170,170),(170,170),(170,170),(100,100),(100,100),(100,100),
       (170,170),(170,170),(170,170)]).state = "up"
    ∧ ∀ x : ℚ × ℚ, (stepSquat x ⟨"squat", 0, "", 0, 0⟩).reps = 0
        ∧ (stepSquat x ⟨"squat", 0, "", 0, 0⟩).state = "up" := by
  refine ⟨by decide, by decide, ?_⟩
  intro x
  exact ⟨rfl, rfl⟩

/-- C1 witness: the first-frame clause applied at the concrete input (150, 150). -/
theorem C1_squat_sequence_w :
    (stepSquat ((150 : ℚ), (150 : ℚ)) ⟨"squat", 0, "", 0, 0⟩).reps = 0
    ∧ (stepSquat ((150 : ℚ), (150 : ℚ)) ⟨"squat", 0, "", 0, 0⟩).state = "up" :=
  C1_squat_sequence.2.2 ((150 : ℚ), (150 : ℚ))

/-- C3: a frame with no valid angle measurement mutates nothing: for squat
and sit-to-stand a missing knee angle, and for leg-raise both hip angles
missing, leave the whole rep counter (reps, phase, dwell, form percentage)
exactly unchanged. -/
theorem C3_invalid_frame_noop :
    (∀ (rc : RepCounter) (Rk : Option ℚ), logic_squat none Rk rc = rc)
    ∧ (∀ (rc : RepCounter) (Lk : Option ℚ), logic_squat Lk none rc = rc)
    ∧ (∀ (rc : RepCounter) (Rk : Option ℚ), logic_sts none Rk rc = rc)
    ∧ (∀ (rc : RepCounter) (Lk : Option ℚ), logic_sts Lk none rc = rc)
    ∧ (∀ rc : RepCounter, logic_leg_raise none none rc = rc) := by
  refine ⟨?_, ?_, ?_, ?_, ?_⟩
  · intro rc Rk; cases Rk <;> rfl
  · intro rc Lk; cases Lk <;> rfl
  · intro rc Rk; cases Rk <;> rfl
  · intro rc Lk; cases Lk <;> rfl
  · intro rc; rfl

/-- C3 witness: the squat no-op clause applied at a concrete counter and a
concrete half-missing measurement. -/
theorem C3_invalid_frame_noop_w :
    logic_squat none (some 100) ⟨"squat", 4, "down", 2, 55⟩ = ⟨"squat", 4, "down", 2, 55⟩ :=
  C3_invalid_frame_noop.1 ⟨"squat", 4, "down", 2, 55⟩ (some 100)

/-- C8: on any valid sit-to-stand frame, if the rep count changes at all
then the machine was in phase "sit", moved to phase "stand", and the count
rose by exactly 1; in particular the count never changes on a stand-to-sit
transition or on a frame that does not change phase. -/
theorem C8_sts_increment_only_sit_to_stand :
    ∀ (rc : RepCounter) (x : ℚ × ℚ),
      ((stepSts x rc).reps ≠ rc.reps →
        rc.state = "sit" ∧ (stepSts x rc).state = "stand"
          ∧ (stepSts x rc).reps = rc.reps + 1)
      ∧ (rc.state = "stand" → (stepSts x rc).reps = rc.reps)
      ∧ ((stepSts x rc).state = rc.state → (stepSts x rc).reps = rc.reps) := by
  intro rc x
  by_cases h1 : rc.state = "" <;>
    by_cases h2 : rc.state = "sit" <;>
    by_cases h3 : rc.state = "stand" <;>
    by_cases hsit : (x.1 < STS_SIT_MAX ∧ x.2 < STS_SIT_MAX) <;>
    by_cases hstand : (STS_STAND_MIN < x.1 ∧ STS_STAND_MIN < x.2) <;>
    by_cases hm : MIN_DWELL ≤ rc.dwell + 1 <;>
    simp [stepSts, logic_sts, form_quality_sts, h1, h2, h3, hsit, hstand, hm]

/-- C8 witness: a sit-phase counter with dwell 2 receiving a third
consecutive stand frame increments from 5 to 6 and moves to "stand". -/
theorem C8_sts_increment_only_sit_to_stand_w :
    RepCounter.state ⟨"sts", 5, "sit", 2, 0⟩ = "sit"
    ∧ (stepSts ((170 : ℚ), (170 : ℚ)) ⟨"sts", 5, "sit", 2, 0⟩).state = "stand"
    ∧ (stepSts ((170 : ℚ), (170 : ℚ)) ⟨"sts", 5, "sit", 2, 0⟩).reps = 5 + 1 :=
  (C8_sts_increment_only_sit_to_stand ⟨"sts", 5, "sit", 2, 0⟩ ((170 : ℚ), (170 : ℚ))).1
    (by decide)

/-- Rounding stays within one unit of the floor. -/
theorem pyRound_bounds (q : ℚ) : ⌊q⌋ ≤ pyRound q ∧ pyRound q ≤ ⌊q⌋ + 1 := by
  unfold pyRound
  split_ifs <;> omega

/-- Round-half-to-even is monotone. -/
theorem pyRound_mono {q r : ℚ} (h : q ≤ r) : pyRound q ≤ pyRound r := by
  rcases lt_or_eq_of_le (Int.floor_le_floor h) with hf | hf
  · have b1 := pyRound_bounds q
    have b2 := pyRound_bounds r
    omega
  · have hq1 := Int.floor_le q
    have hr1 := Int.floor_le r
    have hq2 := Int.lt_floor_add_one q
    have hr2 := Int.lt_floor_add_one r
    unfold pyRound
    rw [← hf]
    split_ifs <;> first | omega | (exfalso; linarith)

/-- Round-half-to-even fixes integers. -/
theorem pyRound_intCast (n : ℤ) : pyRound (n : ℚ) = n := by
  unfold pyRound
  rw [Int.floor_intCast]
  rw [if_pos (by norm_num)]

/-- Equal knee angles collapse the squat quality mean to a single knee score. -/
theorem form_quality_squat_eq (a : ℚ) :
    form_quality_squat (some a) (some a) = some (pyRound (100 * knee_score a)) := by
  simp only [form_quality_squat]
  congr 1
  congr 1
  ring

/-- The per-knee squat score is antitone in the knee angle. -/
theorem knee_score_antitone {a b : ℚ} (h : a ≤ b) : knee_score b ≤ knee_score a := by
  unfold knee_score _clamp01
  have h90 : (0:ℚ) < 180 - 90 := by norm_num
  exact max_le_max le_rfl (min_le_min le_rfl ((div_le_div_iff_of_pos_right h90).mpr (by linarith)))

/-- C9: the squat form-quality scorer with both knee angles present and
equal maps 90 degrees to quality 100 and 180 degrees to quality 0, and the
quality is monotonically non-increasing in the angle. -/
theorem C9_squat_quality :
    form_quality_squat (some 90) (some 90) = some 100
    ∧ form_quality_squat (some 180) (some 180) = some 0
    ∧ ∀ a b : ℚ, a ≤ b →
        ∃ qa qb, form_quality_squat (some a) (some a) = some qa
          ∧ form_quality_squat (some b) (some b) = some qb ∧ qb ≤ qa := by
  refine ⟨?_, ?_, ?_⟩
  · rw [form_quality_squat_eq]
    have h1 : knee_score 90 = 1 := by norm_num [knee_score, _clamp01]
    rw [h1]
    have h2 : (100 : ℚ) * 1 = ((100 : ℤ) : ℚ) := by norm_num
    rw [h2, pyRound_intCast]
  · rw [form_quality_squat_eq]
    have h1 : knee_score 180 = 0 := by norm_num [knee_score, _clamp01]
    rw [h1]
    have h2 : (100 : ℚ) * 0 = ((0 : ℤ) : ℚ) := by norm_num
    rw [h2, pyRound_intCast]
  · intro a b hab
    refine ⟨pyRound (100 * knee_score a), pyRound (100 * knee_score b),
      form_quality_squat_eq a, form_quality_squat_eq b, ?_⟩
    exact pyRound_mono (by nlinarith [knee_score_antitone hab])

/-- C9 witness: the monotonicity clause applied at the concrete pair of
angles 100 and 120. -/
theorem C9_squat_quality_w :
    ∃ qa qb, form_quality_squat (some 100) (some 100) = some qa
      ∧ form_quality_squat (some 120) (some 120) = some qb ∧ qb ≤ qa :=
  C9_squat_quality.2.2 100 120 (by norm_num)

/-- C4 (amended): with the norm precondition read as `norm ≥ 1e-6` (the
code tests `norm < 1e-6`), `angle_3pt` returns a value in [0, 180] degrees
whenever all three points are valid and both vector norms are at least
1e-6, and returns no value (never NaN, never an exception) whenever a
point is invalid or a vector norm is below 1e-6. -/
theorem C4_angle_range :
    ∀ a b c : Pt,
      ((_valid_point a ∧ _valid_point b ∧ _valid_point c) →
        1/1000000 ≤ vnorm (vsub a b) → 1/1000000 ≤ vnorm (vsub c b) →
        ∃ θ : ℝ, angle_3pt a b c = some θ ∧ 0 ≤ θ ∧ θ ≤ 180)
      ∧ (¬(_valid_point a ∧ _valid_point b ∧ _valid_point c) → angle_3pt a b c = none)
      ∧ ((vnorm (vsub a b) < 1/1000000 ∨ vnorm (vsub c b) < 1/1000000) →
          angle_3pt a b c = none) := by
  intro a b c
  refine ⟨?_, ?_, ?_⟩
  · intro hv h1 h2
    unfold angle_3pt
    rw [if_pos hv, if_neg (by push_neg; exact ⟨h1, h2⟩)]
    refine ⟨_, rfl, ?_, ?_⟩
    · exact mul_nonneg (Real.arccos_nonneg _)
        (div_nonneg (by norm_num) Real.pi_pos.le)
    · have hb : Real.arccos (max (-1) (min 1
          (((dot (vsub a b) (vsub c b) : ℚ) : ℝ) / (vnorm (vsub a b) * vnorm (vsub c b)))))
          * (180 / Real.pi) ≤ Real.pi * (180 / Real.pi) :=
        mul_le_mul_of_nonneg_right (Real.arccos_le_pi _)
          (div_nonneg (by norm_num) Real.pi_pos.le)
      have hpi : Real.pi * (180 / Real.pi) = 180 := by
        field_simp
      linarith
  · intro hv
    unfold angle_3pt
    rw [if_neg hv]
  · intro hsmall
    unfold angle_3pt
    by_cases hv : (_valid_point a ∧ _valid_point b ∧ _valid_point c)
    · rw [if_pos hv, if_pos hsmall]
    · rw [if_neg hv]

/-- C4 witness: the in-range clause applied at the concrete right-angle
triple a = (1,1), b = (2,1), c = (2,2), whose vectors both have norm 1. -/
theorem C4_angle_range_w :
    ∃ θ : ℝ, angle_3pt ((1 : ℚ), (1 : ℚ)) ((2 : ℚ), (1 : ℚ)) ((2 : ℚ), (2 : ℚ)) = some θ
      ∧ 0 ≤ θ ∧ θ ≤ 180 := by
  have hn1 : vnorm (vsub ((1 : ℚ), (1 : ℚ)) ((2 : ℚ), (1 : ℚ))) = 1 := by
    have hd : dot (vsub ((1 : ℚ), (1 : ℚ)) ((2 : ℚ), (1 : ℚ)))
        (vsub ((1 : ℚ), (1 : ℚ)) ((2 : ℚ), (1 : ℚ))) = 1 := by
      norm_num [dot, vsub]
    rw [vnorm, hd]
    norm_num
  have hn2 : vnorm (vsub ((2 : ℚ), (2 : ℚ)) ((2 : ℚ), (1 : ℚ))) = 1 := by
    have hd : dot (vsub ((2 : ℚ), (2 : ℚ)) ((2 : ℚ), (1 : ℚ)))
        (vsub ((2 : ℚ), (2 : ℚ)) ((2 : ℚ), (1 : ℚ))) = 1 := by
      norm_num [dot, vsub]
    rw [vnorm, hd]
    norm_num
  exact (C4_angle_range ((1 : ℚ), (1 : ℚ)) ((2 : ℚ), (1 : ℚ)) ((2 : ℚ), (2 : ℚ))).1
    (by norm_num [_valid_point]) (by rw [hn1]; norm_num) (by rw [hn2]; norm_num)

/-- C4 counterexample to the claim as stated: at the concrete triple
a = (2e-6, 1), b = (1e-6, 1), c = (1e-6, 2) the vector a - b has norm
exactly 1e-6, so the precondition "norm > 1e-6" is violated, yet
`angle_3pt` does not return "no value": it returns 90 degrees. -/
theorem C4_angle_boundary_counterexample :
    ¬(1/1000000 < vnorm (vsub ((2/1000000 : ℚ), 1) ((1/1000000 : ℚ), 1)))
    ∧ angle_3pt ((2/1000000 : ℚ), 1) ((1/1000000 : ℚ), 1) ((1/1000000 : ℚ), 2)
        = some 90 := by
  have hd1 : dot (vsub ((2/1000000 : ℚ), 1) ((1/1000000 : ℚ), 1))
      (vsub ((2/1000000 : ℚ), 1) ((1/1000000 : ℚ), 1)) = 1/1000000000000 := by
    norm_num [dot, vsub]
  have hn1 : vnorm (vsub ((2/1000000 : ℚ), 1) ((1/1000000 : ℚ), 1)) = 1/1000000 := by
    rw [vnorm, hd1]
    rw [show (((1/1000000000000 : ℚ) : ℝ)) = (1/1000000 : ℝ)^2 by norm_num]
    rw [Real.sqrt_sq (by norm_num)]
  have hd2 : dot (vsub ((1/1000000 : ℚ), 2) ((1/1000000 : ℚ), 1))
      (vsub ((1/1000000 : ℚ), 2) ((1/1000000 : ℚ), 1)) = 1 := by
    norm_num [dot, vsub]
  have hn2 : vnorm (vsub ((1/1000000 : ℚ), 2) ((1/1000000 : ℚ), 1)) = 1 := by
    rw [vnorm, hd2]
    norm_num
  refine ⟨by rw [hn1]; exact lt_irrefl _, ?_⟩
  unfold angle_3pt
  rw [if_pos (by norm_num [_valid_point])]
  rw [if_neg (by push_neg; rw [hn1, hn2]; norm_num)]
  have hdot : dot (vsub ((2/1000000 : ℚ), 1) ((1/1000000 : ℚ), 1))
      (vsub ((1/1000000 : ℚ), 2) ((1/1000000 : ℚ), 1)) = 0 := by
    norm_num [dot, vsub]
  rw [hdot]
  rw [show (((0 : ℚ) : ℝ)) = (0 : ℝ) by norm_num]
  rw [zero_div]
  rw [show max (-1 : ℝ) (min 1 0) = 0 by norm_num]
  rw [Real.arccos_zero]
  rw [show Real.pi / 2 * (180 / Real.pi) = 90 by field_simp; ring]

/-- Masking is the identity when every confidence clears the threshold. -/
theorem maskKps_id : ∀ (kps : List Pt) (conf : List ℚ), kps.length ≤ conf.length →
    (∀ c ∈ conf, KEYPT_MIN_CONF ≤ c) → maskKps kps conf = kps := by
  intro kps
  induction kps with
  | nil => intro conf _ _; rfl
  | cons p ps ih =>
    intro conf hlen hconf
    cases conf with
    | nil => simp at hlen
    | cons c cs =>
      show (if c < KEYPT_MIN_CONF then ((-1 : ℚ), (-1 : ℚ)) else p) :: maskKps ps cs = p :: ps
      rw [if_neg (not_lt.mpr (hconf c (List.mem_cons_self c cs)))]
      rw [ih cs (by simpa using hlen) (fun d hd => hconf d (List.mem_cons_of_mem c hd))]

/-- Smoothing a valid point against itself returns the point itself. -/
theorem emaJoint_self (af as_ : ℚ) (p : Pt) (hp : 0 < p.1 ∧ 0 < p.2) :
    emaJoint af as_ p p = p := by
  unfold emaJoint
  rw [if_neg (by push_neg; exact ⟨hp.1, hp.2⟩), if_neg (by push_neg; exact ⟨hp.1, hp.2⟩)]
  have hv : vsub p p = ((0 : ℚ), (0 : ℚ)) := by simp [vsub]
  rw [hv]
  have hd : dot ((0 : ℚ), (0 : ℚ)) ((0 : ℚ), (0 : ℚ)) = 0 := by norm_num [dot]
  rw [hd, if_neg (by norm_num)]
  show ((1 - as_) * p.1 + as_ * p.1, (1 - as_) * p.2 + as_ * p.2) = p
  have hx : ∀ a x : ℚ, (1 - a) * x + a * x = x := fun a x => by ring
  rw [hx, hx]

/-- Per-joint smoothing of a list of valid points against itself is the
identity. -/
theorem zipWith_emaJoint_self (af as_ : ℚ) :
    ∀ kps : List Pt, (∀ p ∈ kps, 0 < p.1 ∧ 0 < p.2) →
      List.zipWith (emaJoint af as_) kps kps = kps := by
  intro kps
  induction kps with
  | nil => intro _; rfl
  | cons p ps ih =>
    intro hv
    show emaJoint af as_ p p :: List.zipWith (emaJoint af as_) ps ps = p :: ps
    rw [emaJoint_self af as_ p (hv p (List.mem_cons_self p ps))]
    rw [ih (fun q hq => hv q (List.mem_cons_of_mem p hq))]

/-- C5 (amended): on a non-first update whose masked current value for a
joint is invalid, the update outputs the sentinel for that joint and also
writes the sentinel through into the stored state for that joint, so the
next call sees the sentinel (not the earlier stored value) as the previous
value. -/
theorem C5_invalid_written_through :
    ∀ (af as_ : ℚ) (prev kps : List Pt) (conf : List ℚ) (i : ℕ) (p m : Pt),
      kps.length = 17 → 17 ≤ conf.length →
      prev.get? i = some p → (maskKps kps conf).get? i = some m →
      (m.1 ≤ 0 ∨ m.2 ≤ 0) →
      ∃ out : List Pt, EMAupdate af as_ (some prev) kps conf = (some out, some out)
        ∧ out.get? i = some ((-1 : ℚ), (-1 : ℚ)) := by
  intro af as_ prev kps conf i p m hk hc hp hm hbad
  unfold EMAupdate
  rw [if_pos ⟨hk, hc⟩]
  refine ⟨_, rfl, ?_⟩
  rw [List.get?_zipWith', hp, hm]
  have he : emaJoint af as_ p m = ((-1 : ℚ), (-1 : ℚ)) := by
    unfold emaJoint
    rw [if_pos hbad]
  simp [he]

/-- C5 witness: a stored joint at (5,5) whose confidence drops to 0 is
output as the sentinel and its stored value becomes the sentinel. -/
theorem C5_invalid_written_through_w :
    ∃ out : List Pt,
      EMAupdate (9/20) (3/20) (some (List.replicate 17 ((5 : ℚ), (5 : ℚ))))
        (List.replicate 17 ((5 : ℚ), (5 : ℚ))) ((0 : ℚ) :: List.replicate 16 (1 : ℚ))
        = (some out, some out)
      ∧ out.get? 0 = some ((-1 : ℚ), (-1 : ℚ)) := by
  refine C5_invalid_written_through (9/20) (3/20) _ _ _ 0 ((5 : ℚ), (5 : ℚ))
    ((-1 : ℚ), (-1 : ℚ)) (by simp) (by simp) (by simp) ?_ (by norm_num)
  norm_num [maskKps, KEYPT_MIN_CONF, List.replicate_succ]

/-- C5 counterexample to the claim as stated: with all 17 joints stored at
(5,5), an update whose joint-0 confidence is 0 (invalid after masking)
replaces the stored value of joint 0 by the sentinel (-1,-1) instead of
leaving the previously stored (5,5) available for the next call. -/
theorem C5_state_not_preserved_counterexample :
    (EMAupdate (9/20) (3/20) (some (List.replicate 17 ((5 : ℚ), (5 : ℚ))))
        (List.replicate 17 ((5 : ℚ), (5 : ℚ))) ((0 : ℚ) :: List.replicate 16 (1 : ℚ))).1
      = some (((-1 : ℚ), (-1 : ℚ)) :: List.replicate 16 ((5 : ℚ), (5 : ℚ)))
    ∧ ((-1 : ℚ), (-1 : ℚ)) ≠ ((5 : ℚ), (5 : ℚ)) := by
  constructor
  · norm_num [EMAupdate, maskKps, emaJoint, KEYPT_MIN_CONF, vsub, dot, List.replicate_succ]
  · norm_num

/-- C6 (amended): for a 17-landmark input whose confidences are all at
least the 0.35 threshold and whose coordinates are all positive (valid),
the first stabilizer update returns the input unchanged, and a second
update with the identical input returns the identical output: the stored
state is a fixed point of the smoothing. -/
theorem C6_first_update_fixed_point :
    ∀ (af as_ : ℚ) (kps : List Pt) (conf : List ℚ),
      kps.length = 17 → 17 ≤ conf.length →
      (∀ c ∈ conf, KEYPT_MIN_CONF ≤ c) → (∀ p ∈ kps, 0 < p.1 ∧ 0 < p.2) →
      EMAupdate af as_ none kps conf = (some kps, some kps)
      ∧ EMAupdate af as_ (some kps) kps conf = (some kps, some kps) := by
  intro af as_ kps conf hk hc hconf hvalid
  have hmask : maskKps kps conf = kps := maskKps_id kps conf (hk ▸ hc) hconf
  constructor
  · unfold EMAupdate
    rw [if_pos ⟨hk, hc⟩, hmask]
  · unfold EMAupdate
    rw [if_pos ⟨hk, hc⟩, hmask]
    show (some (List.zipWith (emaJoint af as_) kps kps),
          some (List.zipWith (emaJoint af as_) kps kps)) = (some kps, some kps)
    rw [zipWith_emaJoint_self af as_ kps hvalid]

/-- C6 witness: the fixed-point clause applied to 17 landmarks at (5,5)
with all confidences 1. -/
theorem C6_first_update_fixed_point_w :
    EMAupdate (9/20) (3/20) none (List.replicate 17 ((5 : ℚ), (5 : ℚ)))
        (List.replicate 17 (1 : ℚ))
      = (some (List.replicate 17 ((5 : ℚ), (5 : ℚ))),
         some (List.replicate 17 ((5 : ℚ), (5 : ℚ))))
    ∧ EMAupdate (9/20) (3/20) (some (List.replicate 17 ((5 : ℚ), (5 : ℚ))))
        (List.replicate 17 ((5 : ℚ), (5 : ℚ))) (List.replicate 17 (1 : ℚ))
      = (some (List.replicate 17 ((5 : ℚ), (5 : ℚ))),
         some (List.replicate 17 ((5 : ℚ), (5 : ℚ)))) :=
  C6_first_update_fixed_point (9/20) (3/20) _ _ (by simp) (by simp)
    (fun c hc => by rw [List.eq_of_mem_replicate hc]; norm_num [KEYPT_MIN_CONF])
    (fun p hp => by rw [List.eq_of_mem_replicate hp]; norm_num)

/-- C6 counterexample to the claim as stated: a 17-landmark input with all
confidences 1 but a non-positive coordinate at joint 0 is returned
unchanged by the first update, while the second identical update outputs
the sentinel at joint 0, so the two outputs differ. -/
theorem C6_nonpositive_coordinate_counterexample :
    (EMAupdate (9/20) (3/20) none
        (((0 : ℚ), (5 : ℚ)) :: List.replicate 16 ((5 : ℚ), (5 : ℚ)))
        (List.replicate 17 (1 : ℚ))).2
      = some (((0 : ℚ), (5 : ℚ)) :: List.replicate 16 ((5 : ℚ), (5 : ℚ)))
    ∧ (EMAupdate (9/20) (3/20)
        (some (((0 : ℚ), (5 : ℚ)) :: List.replicate 16 ((5 : ℚ), (5 : ℚ))))
        (((0 : ℚ), (5 : ℚ)) :: List.replicate 16 ((5 : ℚ), (5 : ℚ)))
        (List.replicate 17 (1 : ℚ))).2
      = some (((-1 : ℚ), (-1 : ℚ)) :: List.replicate 16 ((5 : ℚ), (5 : ℚ)))
    ∧ (((-1 : ℚ), (-1 : ℚ)) :: List.replicate 16 ((5 : ℚ), (5 : ℚ)))
        ≠ (((0 : ℚ), (5 : ℚ)) :: List.replicate 16 ((5 : ℚ), (5 : ℚ))) := by
  refine ⟨?_, ?_, ?_⟩
  · norm_num [EMAupdate, maskKps, KEYPT_MIN_CONF, List.replicate_succ]
  · norm_num [EMAupdate, maskKps, emaJoint, KEYPT_MIN_CONF, vsub, dot, List.replicate_succ]
  · simp

/-- Specification of the selection loop: either nothing beat the incoming
best score (and the incoming best index is returned), or the returned
index is the first candidate attaining the maximal score among those that
beat the incoming best score. -/
theorem pickAux_spec (W H : ℚ) (prev : Option Box) :
    ∀ (ps : List Person) (k : ℕ) (bi : Option ℕ) (bs : ℝ),
      (pickAux W H prev ps k bi bs = bi
        ∧ ∀ (j : ℕ) (r : Person), ps.get? j = some r → person_score W H prev r ≤ bs)
      ∨ (∃ (i : ℕ) (q : Person), ps.get? i = some q
          ∧ pickAux W H prev ps k bi bs = some (k + i)
          ∧ bs < person_score W H prev q
          ∧ (∀ (j : ℕ) (r : Person), ps.get? j = some r → j < i →
              person_score W H prev r < person_score W H prev q)
          ∧ (∀ (j : ℕ) (r : Person), ps.get? j = some r → i < j →
              person_score W H prev r ≤ person_score W H prev q)) := by
  intro ps
  induction ps with
  | nil =>
    intro k bi bs
    left
    exact ⟨rfl, fun j r hr => by simp at hr⟩
  | cons p ps ih =>
    intro k bi bs
    by_cases hlt : bs < person_score W H prev p
    · have hstep : pickAux W H prev (p :: ps) k bi bs
          = pickAux W H prev ps (k + 1) (some k) (person_score W H prev p) := by
        show (if bs < person_score W H prev p then _ else _) = _
        rw [if_pos hlt]
      rcases ih (k + 1) (some k) (person_score W H prev p) with
        ⟨hres, hall⟩ | ⟨i, q, hq, hres, hgt, hbefore, hafter⟩
      · right
        refine ⟨0, p, rfl, ?_, hlt, ?_, ?_⟩
        · rw [hstep, hres, Nat.add_zero]
        · intro j r hr hj0
          exact absurd hj0 (Nat.not_lt_zero j)
        · intro j r hr h0j
          cases j with
          | zero => exact absurd h0j (lt_irrefl 0)
          | succ j' => exact hall j' r hr
      · right
        refine ⟨i + 1, q, hq, ?_, lt_trans hlt hgt, ?_, ?_⟩
        · rw [hstep, hres]
          congr 1
          omega
        · intro j r hr hji
          cases j with
          | zero =>
            injection hr with h
            rw [← h]
            exact hgt
          | succ j' => exact hbefore j' r hr (by omega)
        · intro j r hr hij
          cases j with
          | zero => exact absurd hij (by omega)
          | succ j' => exact hafter j' r hr (by omega)
    · have hstep : pickAux W H prev (p :: ps) k bi bs = pickAux W H prev ps (k + 1) bi bs := by
        show (if bs < person_score W H prev p then _ else _) = _
        rw [if_neg hlt]
      rcases ih (k + 1) bi bs with ⟨hres, hall⟩ | ⟨i, q, hq, hres, hgt, hbefore, hafter⟩
      · left
        refine ⟨hstep.trans hres, ?_⟩
        intro j r hr
        cases j with
        | zero =>
          injection hr with h
          rw [← h]
          exact not_lt.mp hlt
        | succ j' => exact hall j' r hr
      · right
        refine ⟨i + 1, q, hq, ?_, hgt, ?_, ?_⟩
        · rw [hstep, hres]
          congr 1
          omega
        · intro j r hr hji
          cases j with
          | zero =>
            injection hr with h
            rw [← h]
            exact lt_of_le_of_lt (not_lt.mp hlt) hgt
          | succ j' => exact hbefore j' r hr (by omega)
        · intro j r hr hij
          cases j with
          | zero => exact absurd hij (by omega)
          | succ j' => exact hafter j' r hr (by omega)

/-- C10: whenever `pick_best_person` selects an index, that index carries a
maximal selection score, and any other candidate attaining exactly the same
score has a larger index (the running maximum is replaced only on a
strictly greater score, so ties go to the lowest index); selection is a
function of the detections, frame size and previous box. -/
theorem C10_ties_go_to_lowest_index :
    ∀ (W H : ℚ) (prev : Option Box) (ps : List Person) (i : ℕ),
      pick_best_person W H prev ps = some i →
      ∃ q : Person, ps.get? i = some q
        ∧ (∀ (j : ℕ) (r : Person), ps.get? j = some r →
            person_score W H prev r ≤ person_score W H prev q)
        ∧ (∀ (j : ℕ) (r : Person), ps.get? j = some r →
            person_score W H prev r = person_score W H prev q → i ≤ j) := by
  intro W H prev ps i hpick
  rcases pickAux_spec W H prev ps 0 none (-1000000000) with
    ⟨hres, _⟩ | ⟨i0, q, hq, hres, _, hbefore, hafter⟩
  · rw [pick_best_person, hres] at hpick
    exact absurd hpick (by simp)
  · rw [pick_best_person, hres] at hpick
    have hii : i0 = i := by injection hpick with h; omega
    subst hii
    refine ⟨q, hq, ?_, ?_⟩
    · intro j r hr
      rcases lt_trichotomy j i0 with hj | hj | hj
      · exact (hbefore j r hr hj).le
      · subst hj
        rw [hq] at hr
        injection hr with h
        rw [h]
      · exact hafter j r hr hj
    · intro j r hr heq
      by_contra hcon
      push_neg at hcon
      exact absurd heq (ne_of_lt (hbefore j r hr hcon))

/-- C10 witness: two identical centered candidates of equal score; index 0
is selected and satisfies the least-argmax property. -/
theorem C10_ties_go_to_lowest_index_w :
    pick_best_person 2 2 none
      [⟨[1], ((1/2 : ℚ), (1/2 : ℚ), (3/2 : ℚ), (3/2 : ℚ))⟩,
       ⟨[1], ((1/2 : ℚ), (1/2 : ℚ), (3/2 : ℚ), (3/2 : ℚ))⟩] = some 0
    ∧ ∃ q : Person,
      ([⟨[1], ((1/2 : ℚ), (1/2 : ℚ), (3/2 : ℚ), (3/2 : ℚ))⟩,
        ⟨[1], ((1/2 : ℚ), (1/2 : ℚ), (3/2 : ℚ), (3/2 : ℚ))⟩] : List Person).get? 0 = some q
      ∧ (∀ (j : ℕ) (r : Person),
          ([⟨[1], ((1/2 : ℚ), (1/2 : ℚ), (3/2 : ℚ), (3/2 : ℚ))⟩,
            ⟨[1], ((1/2 : ℚ), (1/2 : ℚ), (3/2 : ℚ), (3/2 : ℚ))⟩] : List Person).get? j = some r →
          person_score 2 2 none r ≤ person_score 2 2 none q)
      ∧ (∀ (j : ℕ) (r : Person),
          ([⟨[1], ((1/2 : ℚ), (1/2 : ℚ), (3/2 : ℚ), (3/2 : ℚ))⟩,
            ⟨[1], ((1/2 : ℚ), (1/2 : ℚ), (3/2 : ℚ), (3/2 : ℚ))⟩] : List Person).get? j = some r →
          person_score 2 2 none r = person_score 2 2 none q → 0 ≤ j) := by
  have hbon : _bbox_center_bonus 2 2 ((1/2 : ℚ), (1/2 : ℚ), (3/2 : ℚ), (3/2 : ℚ)) = 3/20 := by
    simp only [_bbox_center_bonus]
    norm_num [max_def, Real.sqrt_zero]
  have hsc : person_score 2 2 none ⟨[1], ((1/2 : ℚ), (1/2 : ℚ), (3/2 : ℚ), (3/2 : ℚ))⟩
      = 23/20 := by
    simp only [person_score, hbon]
    norm_num [_iou]
  have hpick : pick_best_person 2 2 none
      [⟨[1], ((1/2 : ℚ), (1/2 : ℚ), (3/2 : ℚ), (3/2 : ℚ))⟩,
       ⟨[1], ((1/2 : ℚ), (1/2 : ℚ), (3/2 : ℚ), (3/2 : ℚ))⟩] = some 0 := by
    simp only [pick_best_person, pickAux]
    rw [if_pos (by rw [hsc]; norm_num)]
    rw [if_neg (by rw [hsc]; exact lt_irrefl _)]
  exact ⟨hpick, C10_ties_go_to_lowest_index 2 2 none _ 0 hpick⟩

/-- C7 (amended): given a previous-frame box and two candidates with equal
mean keypoint confidence and equal center bonus, whichever order they
appear in, the candidate whose box has the strictly higher IoU against
the previous box is selected (provided the better score clears the
initial best score -1e9, as every realistic score does). -/
theorem C7_equal_bonus_higher_iou_selected :
    ∀ (W H : ℚ) (pv : Box) (a b : Person),
      (a.conf.sum / a.conf.length : ℚ) = (b.conf.sum / b.conf.length : ℚ) →
      _bbox_center_bonus W H a.box = _bbox_center_bonus W H b.box →
      _iou (some pv) b.box < _iou (some pv) a.box →
      (-1000000000 : ℝ) < person_score W H (some pv) a →
      pick_best_person W H (some pv) [a, b] = some 0
      ∧ pick_best_person W H (some pv) [b, a] = some 1 := by
  intro W H pv a b hmc hbon hiou hlb
  have hsc : person_score W H (some pv) b < person_score W H (some pv) a := by
    unfold person_score
    rw [hmc, hbon]
    have hcast : ((_iou (some pv) b.box : ℚ) : ℝ) < ((_iou (some pv) a.box : ℚ) : ℝ) := by
      exact_mod_cast hiou
    linarith
  constructor
  · simp only [pick_best_person, pickAux]
    rw [if_pos hlb, if_neg (not_lt.mpr hsc.le)]
  · simp only [pick_best_person, pickAux]
    by_cases hlb2 : (-1000000000 : ℝ) < person_score W H (some pv) b
    · rw [if_pos hlb2, if_pos hsc]
    · rw [if_neg hlb2, if_pos hlb]

/-- C7 witness: previous box (4,4,6,6); candidate a sits exactly on it
(IoU near 1), candidate b is the larger box (3,3,7,7) (IoU near 1/4);
both are centered (equal bonus) with equal confidence; a is selected in
either input order. -/
theorem C7_equal_bonus_higher_iou_selected_w :
    pick_best_person 10 10 (some ((4 : ℚ), (4 : ℚ), (6 : ℚ), (6 : ℚ)))
      [⟨[1/2], ((4 : ℚ), (4 : ℚ), (6 : ℚ), (6 : ℚ))⟩,
       ⟨[1/2], ((3 : ℚ), (3 : ℚ), (7 : ℚ), (7 : ℚ))⟩] = some 0
    ∧ pick_best_person 10 10 (some ((4 : ℚ), (4 : ℚ), (6 : ℚ), (6 : ℚ)))
      [⟨[1/2], ((3 : ℚ), (3 : ℚ), (7 : ℚ), (7 : ℚ))⟩,
       ⟨[1/2], ((4 : ℚ), (4 : ℚ), (6 : ℚ), (6 : ℚ))⟩] = some 1 := by
  have hbonA : _bbox_center_bonus 10 10 ((4 : ℚ), (4 : ℚ), (6 : ℚ), (6 : ℚ)) = 3/20 := by
    simp only [_bbox_center_bonus]
    norm_num [max_def, Real.sqrt_zero]
  have hbonB : _bbox_center_bonus 10 10 ((3 : ℚ), (3 : ℚ), (7 : ℚ), (7 : ℚ)) = 3/20 := by
    simp only [_bbox_center_bonus]
    norm_num [max_def, Real.sqrt_zero]
  have hiouA : _iou (some ((4 : ℚ), (4 : ℚ), (6 : ℚ), (6 : ℚ)))
      ((4 : ℚ), (4 : ℚ), (6 : ℚ), (6 : ℚ)) = 4000000/4000001 := by
    simp only [_iou]
    norm_num [max_def, min_def]
  have hiouB : _iou (some ((4 : ℚ), (4 : ℚ), (6 : ℚ), (6 : ℚ)))
      ((3 : ℚ), (3 : ℚ), (7 : ℚ), (7 : ℚ)) = 4000000/16000001 := by
    simp only [_iou]
    norm_num [max_def, min_def]
  have hscA : person_score 10 10 (some ((4 : ℚ), (4 : ℚ), (6 : ℚ), (6 : ℚ)))
      ⟨[1/2], ((4 : ℚ), (4 : ℚ), (6 : ℚ), (6 : ℚ))⟩
      = (1/2 : ℝ) + 3/20 + (1/5) * (4000000/4000001) := by
    simp only [person_score, hbonA, hiouA]
    norm_num
  exact C7_equal_bonus_higher_iou_selected 10 10 ((4 : ℚ), (4 : ℚ), (6 : ℚ), (6 : ℚ))
    ⟨[1/2], ((4 : ℚ), (4 : ℚ), (6 : ℚ), (6 : ℚ))⟩
    ⟨[1/2], ((3 : ℚ), (3 : ℚ), (7 : ℚ), (7 : ℚ))⟩
    rfl (hbonA.trans hbonB.symm)
    (by rw [hiouA, hiouB]; norm_num)
    (by rw [hscA]; norm_num)

/-- C7 counterexample to the claim as stated: previous box (4,5,6,9); the
two candidates have identical confidences [1/2] (equal means), candidate 0
is centered (full center bonus, IoU about 0.2), candidate 1 overlaps the
previous box much more (IoU about 0.67) but sits off-center; the selector
picks candidate 0, not the higher-IoU candidate 1. -/
theorem C7_center_bonus_overrides_iou_counterexample :
    pick_best_person 10 10 (some ((4 : ℚ), (5 : ℚ), (6 : ℚ), (9 : ℚ)))
      [⟨[1/2], ((4 : ℚ), (4 : ℚ), (6 : ℚ), (6 : ℚ))⟩,
       ⟨[1/2], ((4 : ℚ), (5 : ℚ), (6 : ℚ), (11 : ℚ))⟩] = some 0
    ∧ _iou (some ((4 : ℚ), (5 : ℚ), (6 : ℚ), (9 : ℚ))) ((4 : ℚ), (4 : ℚ), (6 : ℚ), (6 : ℚ))
        < _iou (some ((4 : ℚ), (5 : ℚ), (6 : ℚ), (9 : ℚ))) ((4 : ℚ), (5 : ℚ), (6 : ℚ), (11 : ℚ)) := by
  have hbonA : _bbox_center_bonus 10 10 ((4 : ℚ), (4 : ℚ), (6 : ℚ), (6 : ℚ)) = 3/20 := by
    simp only [_bbox_center_bonus]
    norm_num [max_def, Real.sqrt_zero]
  have hbonB : _bbox_center_bonus 10 10 ((4 : ℚ), (5 : ℚ), (6 : ℚ), (11 : ℚ)) = 0 := by
    simp only [_bbox_center_bonus]
    rw [show ((1/2 * (4 + 6) / max 1 10 - 1/2) * (1/2 * (4 + 6) / max 1 10 - 1/2)
        + (1/2 * (5 + 11) / max 1 10 - 1/2) * (1/2 * (5 + 11) / max 1 10 - 1/2) : ℚ)
        = 9/100 from by norm_num [max_def]]
    rw [show (((9/100 : ℚ) : ℝ)) = (3/10 : ℝ)^2 from by norm_num]
    rw [Real.sqrt_sq (by norm_num)]
    norm_num [max_def]
  have hiouA : _iou (some ((4 : ℚ), (5 : ℚ), (6 : ℚ), (9 : ℚ)))
      ((4 : ℚ), (4 : ℚ), (6 : ℚ), (6 : ℚ)) = 2000000/10000001 := by
    simp only [_iou]
    norm_num [max_def, min_def]
  have hiouB : _iou (some ((4 : ℚ), (5 : ℚ), (6 : ℚ), (9 : ℚ)))
      ((4 : ℚ), (5 : ℚ), (6 : ℚ), (11 : ℚ)) = 8000000/12000001 := by
    simp only [_iou]
    norm_num [max_def, min_def]
  have hscA : person_score 10 10 (some ((4 : ℚ), (5 : ℚ), (6 : ℚ), (9 : ℚ)))
      ⟨[1/2], ((4 : ℚ), (4 : ℚ), (6 : ℚ), (6 : ℚ))⟩
      = (1/2 : ℝ) + 3/20 + (1/5) * (2000000/10000001) := by
    simp only [person_score, hbonA, hiouA]
    norm_num
  have hscB : person_score 10 10 (some ((4 : ℚ), (5 : ℚ), (6 : ℚ), (9 : ℚ)))
      ⟨[1/2], ((4 : ℚ), (5 : ℚ), (6 : ℚ), (11 : ℚ))⟩
      = (1/2 : ℝ) + 0 + (1/5) * (8000000/12000001) := by
    simp only [person_score, hbonB, hiouB]
    norm_num
  refine ⟨?_, by rw [hiouA, hiouB]; norm_num⟩
  simp only [pick_best_person, pickAux]
  rw [if_pos (by rw [hscA]; norm_num)]
  rw [if_neg (by rw [hscA, hscB]; norm_num)]

/-- Unfolding `runSts` over an appended frame. -/
theorem runSts_concat (rc : RepCounter) (l : List (ℚ × ℚ)) (x : ℚ × ℚ) :
    runSts rc (l ++ [x]) = stepSts x (runSts rc l) := by
  simp [runSts]

/-- Case analysis of one sit-to-stand step: the reps, phase and dwell
fields after `stepSts` as a function of the fields before it. -/
theorem stepSts_cases (x : ℚ × ℚ) (rc : RepCounter) :
    ((stepSts x rc).reps, (stepSts x rc).state, (stepSts x rc).dwell) =
      if rc.state = "" then (rc.reps, "sit", 0)
      else if rc.state = "sit" then
        if stsLeave "sit" x then
          if MIN_DWELL ≤ rc.dwell + 1 then (rc.reps + 1, "stand", 0)
          else (rc.reps, "sit", rc.dwell + 1)
        else (rc.reps, "sit", 0)
      else if rc.state = "stand" then
        if stsLeave "stand" x then
          if MIN_DWELL ≤ rc.dwell + 1 then (rc.reps, "sit", 0)
          else (rc.reps, "stand", rc.dwell + 1)
        else (rc.reps, "stand", 0)
      else (rc.reps, rc.state, rc.dwell) := by
  by_cases h1 : rc.state = "" <;>
    by_cases h2 : rc.state = "sit" <;>
    by_cases h3 : rc.state = "stand" <;>
    by_cases hsit : (x.1 < STS_SIT_MAX ∧ x.2 < STS_SIT_MAX) <;>
    by_cases hstand : (STS_STAND_MIN < x.1 ∧ STS_STAND_MIN < x.2) <;>
    by_cases hm : MIN_DWELL ≤ rc.dwell + 1 <;>
    simp [stepSts, logic_sts, stsLeave, form_quality_sts, h1, h2, h3, hsit, hstand, hm]

/-- Dwell-soundness invariant of the sit-to-stand machine. -/
theorem sts_dwell_le_trail (rc : RepCounter) (h0 : rc.dwell = 0) (l : List (ℚ × ℚ)) :
    (runSts rc l).dwell ≤ trailCount (stsLeave (runSts rc l).state) l := by
  induction l using List.reverseRecOn with
  | nil => simpa [runSts, trailCount, leadCount] using h0.le
  | append_singleton l x ih =>
    rw [runSts_concat]
    have hc := stepSts_cases x (runSts rc l)
    by_cases h1 : (runSts rc l).state = ""
    · rw [if_pos h1] at hc
      simp only [Prod.mk.injEq] at hc
      omega
    · rw [if_neg h1] at hc
      by_cases h2 : (runSts rc l).state = "sit"
      · rw [if_pos h2] at hc
        by_cases hL : stsLeave "sit" x
        · rw [if_pos hL] at hc
          by_cases hm : MIN_DWELL ≤ (runSts rc l).dwell + 1
          · rw [if_pos hm] at hc
            simp only [Prod.mk.injEq] at hc
            omega
          · rw [if_neg hm] at hc
            simp only [Prod.mk.injEq] at hc
            rw [h2] at ih
            rw [hc.2.1, hc.2.2, trailCount_concat, if_pos hL]
            omega
        · rw [if_neg hL] at hc
          simp only [Prod.mk.injEq] at hc
          omega
      · rw [if_neg h2] at hc
        by_cases h3 : (runSts rc l).state = "stand"
        · rw [if_pos h3] at hc
          by_cases hL : stsLeave "stand" x
          · rw [if_pos hL] at hc
            by_cases hm : MIN_DWELL ≤ (runSts rc l).dwell + 1
            · rw [if_pos hm] at hc
              simp only [Prod.mk.injEq] at hc
              omega
            · rw [if_neg hm] at hc
              simp only [Prod.mk.injEq] at hc
              rw [h3] at ih
              rw [hc.2.1, hc.2.2, trailCount_concat, if_pos hL]
              omega
          · rw [if_neg hL] at hc
            simp only [Prod.mk.injEq] at hc
            omega
        · rw [if_neg h3] at hc
          simp only [Prod.mk.injEq] at hc
          have hfalse : ∀ y, stsLeave (runSts rc l).state y = false := by
            intro y
            unfold stsLeave
            rw [if_neg h2, if_neg h3]
          have ht : trailCount (stsLeave (runSts rc l).state) l = 0 :=
            trailCount_of_false _ hfalse l
          rw [hc.2.1, hc.2.2]
          omega

/-- Unfolding `runLR` over an appended frame. -/
theorem runLR_concat (rc : RepCounter) (l : List (Option ℚ × Option ℚ))
    (x : Option ℚ × Option ℚ) :
    runLR rc (l ++ [x]) = stepLR x (runLR rc l) := by
  simp [runLR]

/-- Case analysis of one valid leg-raise step: the reps, phase and dwell
fields after `stepLR` as a function of the fields before it, on any frame
with at least one hip measurement present. -/
theorem stepLR_cases (x : Option ℚ × Option ℚ) (hx : lrValid x) (rc : RepCounter) :
    ((stepLR x rc).reps, (stepLR x rc).state, (stepLR x rc).dwell) =
      if rc.state = "" then (rc.reps, "down", 0)
      else if rc.state = "down" then
        if lrLeave "down" x then
          if MIN_DWELL ≤ rc.dwell + 1 then (rc.reps, "up", 0)
          else (rc.reps, "down", rc.dwell + 1)
        else (rc.reps, "down", 0)
      else if rc.state = "up" then
        if lrLeave "up" x then
          if MIN_DWELL ≤ rc.dwell + 1 then (rc.reps + 1, "down", 0)
          else (rc.reps, "up", rc.dwell + 1)
        else (rc.reps, "up", 0)
      else (rc.reps, rc.state, rc.dwell) := by
  obtain ⟨L, R⟩ := x
  cases L with
  | none =>
    cases R with
    | none => exact absurd hx (by simp [lrValid])
    | some r =>
      by_cases h1 : rc.state = "" <;>
        by_cases h2 : rc.state = "down" <;>
        by_cases h3 : rc.state = "up" <;>
        by_cases hU : lr_any_up none (some r) = true <;>
        by_cases hD : lr_both_down none (some r) = true <;>
        by_cases hm : MIN_DWELL ≤ rc.dwell + 1 <;>
        simp [stepLR, logic_leg_raise, lrLeave, form_quality_legraise,
          h1, h2, h3, hU, hD, hm]
  | some l =>
    cases R with
    | none =>
      by_cases h1 : rc.state = "" <;>
        by_cases h2 : rc.state = "down" <;>
        by_cases h3 : rc.state = "up" <;>
        by_cases hU : lr_any_up (some l) none = true <;>
        by_cases hD : lr_both_down (some l) none = true <;>
        by_cases hm : MIN_DWELL ≤ rc.dwell + 1 <;>
        simp [stepLR, logic_leg_raise, lrLeave, form_quality_legraise,
          h1, h2, h3, hU, hD, hm]
    | some r =>
      by_cases h1 : rc.state = "" <;>
        by_cases h2 : rc.state = "down" <;>
        by_cases h3 : rc.state = "up" <;>
        by_cases hU : lr_any_up (some l) (some r) = true <;>
        by_cases hD : lr_both_down (some l) (some r) = true <;>
        by_cases hm : MIN_DWELL ≤ rc.dwell + 1 <;>
        simp [stepLR, logic_leg_raise, lrLeave, form_quality_legraise,
          h1, h2, h3, hU, hD, hm]

/-- Dwell-soundness invariant of the leg-raise machine over valid frames. -/
theorem lr_dwell_le_trail (rc : RepCounter) (h0 : rc.dwell = 0) :
    ∀ l : List (Option ℚ × Option ℚ), (∀ x ∈ l, lrValid x) →
      (runLR rc l).dwell ≤ trailCount (lrLeave (runLR rc l).state) l := by
  intro l
  induction l using List.reverseRecOn with
  | nil => intro _; simpa [runLR, trailCount, leadCount] using h0.le
  | append_singleton l x ih =>
    intro hval
    have hvl : ∀ y ∈ l, lrValid y := fun y hy => hval y (by simp [hy])
    have hvx : lrValid x := hval x (by simp)
    specialize ih hvl
    rw [runLR_concat]
    have hc := stepLR_cases x hvx (runLR rc l)
    by_cases h1 : (runLR rc l).state = ""
    · rw [if_pos h1] at hc
      simp only [Prod.mk.injEq] at hc
      omega
    · rw [if_neg h1] at hc
      by_cases h2 : (runLR rc l).state = "down"
      · rw [if_pos h2] at hc
        by_cases hL : lrLeave "down" x
        · rw [if_pos hL] at hc
          by_cases hm : MIN_DWELL ≤ (runLR rc l).dwell + 1
          · rw [if_pos hm] at hc
            simp only [Prod.mk.injEq] at hc
            omega
          · rw [if_neg hm] at hc
            simp only [Prod.mk.injEq] at hc
            rw [h2] at ih
            rw [hc.2.1, hc.2.2, trailCount_concat, if_pos hL]
            omega
        · rw [if_neg hL] at hc
          simp only [Prod.mk.injEq] at hc
          omega
      · rw [if_neg h2] at hc
        by_cases h3 : (runLR rc l).state = "up"
        · rw [if_pos h3] at hc
          by_cases hL : lrLeave "up" x
          · rw [if_pos hL] at hc
            by_cases hm : MIN_DWELL ≤ (runLR rc l).dwell + 1
            · rw [if_pos hm] at hc
              simp only [Prod.mk.injEq] at hc
              omega
            · rw [if_neg hm] at hc
              simp only [Prod.mk.injEq] at hc
              rw [h3] at ih
              rw [hc.2.1, hc.2.2, trailCount_concat, if_pos hL]
              omega
          · rw [if_neg hL] at hc
            simp only [Prod.mk.injEq] at hc
            omega
        · rw [if_neg h3] at hc
          simp only [Prod.mk.injEq] at hc
          have hfalse : ∀ y, lrLeave (runLR rc l).state y = false := by
            intro y
            unfold lrLeave
            rw [if_neg h2, if_neg h3]
          have ht : trailCount (lrLeave (runLR rc l).state) l = 0 :=
            trailCount_of_false _ hfalse l
          rw [hc.2.1, hc.2.2]
          omega

/-- A squat phase transition (between "up" and "down") requires the leave
condition to hold now and to have held on at least 3 trailing consecutive
valid frames. -/
theorem squat_transition_needs_three (rc0 : RepCounter) (l : List (ℚ × ℚ)) (x : ℚ × ℚ)
    (h0 : rc0.dwell = 0)
    (hud : (runSquat rc0 l).state = "up" ∨ (runSquat rc0 l).state = "down")
    (hne : (stepSquat x (runSquat rc0 l)).state ≠ (runSquat rc0 l).state) :
    squatLeave (runSquat rc0 l).state x = true
    ∧ 3 ≤ trailCount (squatLeave (runSquat rc0 l).state) (l ++ [x]) := by
  have inv := squat_dwell_le_trail rc0 h0 l
  have hc := stepSquat_cases x (runSquat rc0 l)
  rcases hud with hup | hdn
  · have h1 : ¬((runSquat rc0 l).state = "") := by
      rw [hup]; intro h; exact absurd h (by decide)
    rw [if_neg h1, if_pos hup] at hc
    by_cases hL : squatLeave "up" x
    · by_cases hm : MIN_DWELL ≤ (runSquat rc0 l).dwell + 1
      · rw [if_pos hL, if_pos hm] at hc
        simp only [Prod.mk.injEq] at hc
        rw [hup] at inv ⊢
        refine ⟨hL, ?_⟩
        rw [trailCount_concat, if_pos hL]
        have hm3 : (3 : ℕ) ≤ (runSquat rc0 l).dwell + 1 := hm
        omega
      · rw [if_pos hL, if_neg hm] at hc
        simp only [Prod.mk.injEq] at hc
        exact absurd (hc.2.1.trans hup.symm) hne
    · rw [if_neg hL] at hc
      simp only [Prod.mk.injEq] at hc
      exact absurd (hc.2.1.trans hup.symm) hne
  · have h1 : ¬((runSquat rc0 l).state = "") := by
      rw [hdn]; intro h; exact absurd h (by decide)
    have h2 : ¬((runSquat rc0 l).state = "up") := by
      rw [hdn]; intro h; exact absurd h (by decide)
    rw [if_neg h1, if_neg h2, if_pos hdn] at hc
    by_cases hL : squatLeave "down" x
    · by_cases hm : MIN_DWELL ≤ (runSquat rc0 l).dwell + 1
      · rw [if_pos hL, if_pos hm] at hc
        simp only [Prod.mk.injEq] at hc
        rw [hdn] at inv ⊢
        refine ⟨hL, ?_⟩
        rw [trailCount_concat, if_pos hL]
        have hm3 : (3 : ℕ) ≤ (runSquat rc0 l).dwell + 1 := hm
        omega
      · rw [if_pos hL, if_neg hm] at hc
        simp only [Prod.mk.injEq] at hc
        exact absurd (hc.2.1.trans hdn.symm) hne
    · rw [if_neg hL] at hc
      simp only [Prod.mk.injEq] at hc
      exact absurd (hc.2.1.trans hdn.symm) hne

/-- A valid squat frame whose leave condition fails resets dwell to 0. -/
theorem squat_fail_resets (rc : RepCounter) (x : ℚ × ℚ)
    (hud : rc.state = "up" ∨ rc.state = "down")
    (hL : squatLeave rc.state x = false) : (stepSquat x rc).dwell = 0 := by
  have hc := stepSquat_cases x rc
  rcases hud with hup | hdn
  · have h1 : ¬(rc.state = "") := by rw [hup]; intro h; exact absurd h (by decide)
    rw [hup] at hL
    rw [if_neg h1, if_pos hup, if_neg (by simp [hL])] at hc
    simp only [Prod.mk.injEq] at hc
    exact hc.2.2
  · have h1 : ¬(rc.state = "") := by rw [hdn]; intro h; exact absurd h (by decide)
    have h2 : ¬(rc.state = "up") := by rw [hdn]; intro h; exact absurd h (by decide)
    rw [hdn] at hL
    rw [if_neg h1, if_neg h2, if_pos hdn, if_neg (by simp [hL])] at hc
    simp only [Prod.mk.injEq] at hc
    exact hc.2.2

/-- A sit-to-stand phase transition (between "sit" and "stand") requires
the leave condition to hold now and to have held on at least 3 trailing
consecutive valid frames. -/
theorem sts_transition_needs_three (rc0 : RepCounter) (l : List (ℚ × ℚ)) (x : ℚ × ℚ)
    (h0 : rc0.dwell = 0)
    (hud : (runSts rc0 l).state = "sit" ∨ (runSts rc0 l).state = "stand")
    (hne : (stepSts x (runSts rc0 l)).state ≠ (runSts rc0 l).state) :
    stsLeave (runSts rc0 l).state x = true
    ∧ 3 ≤ trailCount (stsLeave (runSts rc0 l).state) (l ++ [x]) := by
  have inv := sts_dwell_le_trail rc0 h0 l
  have hc := stepSts_cases x (runSts rc0 l)
  rcases hud with hup | hdn
  · have h1 : ¬((runSts rc0 l).state = "") := by
      rw [hup]; intro h; exact absurd h (by decide)
    rw [if_neg h1, if_pos hup] at hc
    by_cases hL : stsLeave "sit" x
    · by_cases hm : MIN_DWELL ≤ (runSts rc0 l).dwell + 1
      · rw [if_pos hL, if_pos hm] at hc
        simp only [Prod.mk.injEq] at hc
        rw [hup] at inv ⊢
        refine ⟨hL, ?_⟩
        rw [trailCount_concat, if_pos hL]
        have hm3 : (3 : ℕ) ≤ (runSts rc0 l).dwell + 1 := hm
        omega
      · rw [if_pos hL, if_neg hm] at hc
        simp only [Prod.mk.injEq] at hc
        exact absurd (hc.2.1.trans hup.symm) hne
    · rw [if_neg hL] at hc
      simp only [Prod.mk.injEq] at hc
      exact absurd (hc.2.1.trans hup.symm) hne
  · have h1 : ¬((runSts rc0 l).state = "") := by
      rw [hdn]; intro h; exact absurd h (by decide)
    have h2 : ¬((runSts rc0 l).state = "sit") := by
      rw [hdn]; intro h; exact absurd h (by decide)
    rw [if_neg h1, if_neg h2, if_pos hdn] at hc
    by_cases hL : stsLeave "stand" x
    · by_cases hm : MIN_DWELL ≤ (runSts rc0 l).dwell + 1
      · rw [if_pos hL, if_pos hm] at hc
        simp only [Prod.mk.injEq] at hc
        rw [hdn] at inv ⊢
        refine ⟨hL, ?_⟩
        rw [trailCount_concat, if_pos hL]
        have hm3 : (3 : ℕ) ≤ (runSts rc0 l).dwell + 1 := hm
        omega
      · rw [if_pos hL, if_neg hm] at hc
        simp only [Prod.mk.injEq] at hc
        exact absurd (hc.2.1.trans hdn.symm) hne
    · rw [if_neg hL] at hc
      simp only [Prod.mk.injEq] at hc
      exact absurd (hc.2.1.trans hdn.symm) hne

/-- A valid sit-to-stand frame whose leave condition fails resets dwell. -/
theorem sts_fail_resets (rc : RepCounter) (x : ℚ × ℚ)
    (hud : rc.state = "sit" ∨ rc.state = "stand")
    (hL : stsLeave rc.state x = false) : (stepSts x rc).dwell = 0 := by
  have hc := stepSts_cases x rc
  rcases hud with hup | hdn
  · have h1 : ¬(rc.state = "") := by rw [hup]; intro h; exact absurd h (by decide)
    rw [hup] at hL
    rw [if_neg h1, if_pos hup, if_neg (by simp [hL])] at hc
    simp only [Prod.mk.injEq] at hc
    exact hc.2.2
  · have h1 : ¬(rc.state = "") := by rw [hdn]; intro h; exact absurd h (by decide)
    have h2 : ¬(rc.state = "sit") := by rw [hdn]; intro h; exact absurd h (by decide)
    rw [hdn] at hL
    rw [if_neg h1, if_neg h2, if_pos hdn, if_neg (by simp [hL])] at hc
    simp only [Prod.mk.injEq] at hc
    exact hc.2.2

/-- A leg-raise phase transition (between "down" and "up") requires the
leave condition to hold now and to have held on at least 3 trailing
consecutive valid frames. -/
theorem lr_transition_needs_three (rc0 : RepCounter) (l : List (Option ℚ × Option ℚ))
    (x : Option ℚ × Option ℚ)
    (h0 : rc0.dwell = 0) (hvl : ∀ y ∈ l, lrValid y) (hvx : lrValid x)
    (hud : (runLR rc0 l).state = "down" ∨ (runLR rc0 l).state = "up")
    (hne : (stepLR x (runLR rc0 l)).state ≠ (runLR rc0 l).state) :
    lrLeave (runLR rc0 l).state x = true
    ∧ 3 ≤ trailCount (lrLeave (runLR rc0 l).state) (l ++ [x]) := by
  have inv := lr_dwell_le_trail rc0 h0 l hvl
  have hc := stepLR_cases x hvx (runLR rc0 l)
  rcases hud with hup | hdn
  · have h1 : ¬((runLR rc0 l).state = "") := by
      rw [hup]; intro h; exact absurd h (by decide)
    rw [if_neg h1, if_pos hup] at hc
    by_cases hL : lrLeave "down" x
    · by_cases hm : MIN_DWELL ≤ (runLR rc0 l).dwell + 1
      · rw [if_pos hL, if_pos hm] at hc
        simp only [Prod.mk.injEq] at hc
        rw [hup] at inv ⊢
        refine ⟨hL, ?_⟩
        rw [trailCount_concat, if_pos hL]
        have hm3 : (3 : ℕ) ≤ (runLR rc0 l).dwell + 1 := hm
        omega
      · rw [if_pos hL, if_neg hm] at hc
        simp only [Prod.mk.injEq] at hc
        exact absurd (hc.2.1.trans hup.symm) hne
    · rw [if_neg hL] at hc
      simp only [Prod.mk.injEq] at hc
      exact absurd (hc.2.1.trans hup.symm) hne
  · have h1 : ¬((runLR rc0 l).state = "") := by
      rw [hdn]; intro h; exact absurd h (by decide)
    have h2 : ¬((runLR rc0 l).state = "down") := by
      rw [hdn]; intro h; exact absurd h (by decide)
    rw [if_neg h1, if_neg h2, if_pos hdn] at hc
    by_cases hL : lrLeave "up" x
    · by_cases hm : MIN_DWELL ≤ (runLR rc0 l).dwell + 1
      · rw [if_pos hL, if_pos hm] at hc
        simp only [Prod.mk.injEq] at hc
        rw [hdn] at inv ⊢
        refine ⟨hL, ?_⟩
        rw [trailCount_concat, if_pos hL]
        have hm3 : (3 : ℕ) ≤ (runLR rc0 l).dwell + 1 := hm
        omega
      · rw [if_pos hL, if_neg hm] at hc
        simp only [Prod.mk.injEq] at hc
        exact absurd (hc.2.1.trans hdn.symm) hne
    · rw [if_neg hL] at hc
      simp only [Prod.mk.injEq] at hc
      exact absurd (hc.2.1.trans hdn.symm) hne

/-- A valid leg-raise frame whose leave condition fails resets dwell. -/
theorem lr_fail_resets (rc : RepCounter) (x : Option ℚ × Option ℚ) (hvx : lrValid x)
    (hud : rc.state = "down" ∨ rc.state = "up")
    (hL : lrLeave rc.state x = false) : (stepLR x rc).dwell = 0 := by
  have hc := stepLR_cases x hvx rc
  rcases hud with hup | hdn
  · have h1 : ¬(rc.state = "") := by rw [hup]; intro h; exact absurd h (by decide)
    rw [hup] at hL
    rw [if_neg h1, if_pos hup, if_neg (by simp [hL])] at hc
    simp only [Prod.mk.injEq] at hc
    exact hc.2.2
  · have h1 : ¬(rc.state = "") := by rw [hdn]; intro h; exact absurd h (by decide)
    have h2 : ¬(rc.state = "down") := by rw [hdn]; intro h; exact absurd h (by decide)
    rw [hdn] at hL
    rw [if_neg h1, if_neg h2, if_pos hdn, if_neg (by simp [hL])] at hc
    simp only [Prod.mk.injEq] at hc
    exact hc.2.2

/-- C2: in each of the three exercise state machines, a phase transition
between the two real phases happens only on a frame where the
leave-condition of the current phase holds and has held on at least
`MIN_DWELL = 3` trailing consecutive valid-measurement frames, and a
valid frame whose condition fails resets the dwell counter to 0; in
particular, on the squat machine a dip of both knees below 120 lasting
only 2 frames followed by a return above 165 yields 0 reps. -/
theorem C2_dwell_gate :
    (∀ (rc0 : RepCounter) (l : List (ℚ × ℚ)) (x : ℚ × ℚ), rc0.dwell = 0 →
      ((runSquat rc0 l).state = "up" ∨ (runSquat rc0 l).state = "down") →
      (stepSquat x (runSquat rc0 l)).state ≠ (runSquat rc0 l).state →
      squatLeave (runSquat rc0 l).state x = true
        ∧ 3 ≤ trailCount (squatLeave (runSquat rc0 l).state) (l ++ [x]))
    ∧ (∀ (rc : RepCounter) (x : ℚ × ℚ), (rc.state = "up" ∨ rc.state = "down") →
        squatLeave rc.state x = false → (stepSquat x rc).dwell = 0)
    ∧ (∀ (rc0 : RepCounter) (l : List (ℚ × ℚ)) (x : ℚ × ℚ), rc0.dwell = 0 →
      ((runSts rc0 l).state = "sit" ∨ (runSts rc0 l).state = "stand") →
      (stepSts x (runSts rc0 l)).state ≠ (runSts rc0 l).state →
      stsLeave (runSts rc0 l).state x = true
        ∧ 3 ≤ trailCount (stsLeave (runSts rc0 l).state) (l ++ [x]))
    ∧ (∀ (rc : RepCounter) (x : ℚ × ℚ), (rc.state = "sit" ∨ rc.state = "stand") →
        stsLeave rc.state x = false → (stepSts x rc).dwell = 0)
    ∧ (∀ (rc0 : RepCounter) (l : List (Option ℚ × Option ℚ)) (x : Option ℚ × Option ℚ),
        rc0.dwell = 0 → (∀ y ∈ l, lrValid y) → lrValid x →
        ((runLR rc0 l).state = "down" ∨ (runLR rc0 l).state = "up") →
        (stepLR x (runLR rc0 l)).state ≠ (runLR rc0 l).state →
        lrLeave (runLR rc0 l).state x = true
          ∧ 3 ≤ trailCount (lrLeave (runLR rc0 l).state) (l ++ [x]))
    ∧ (∀ (rc : RepCounter) (x : Option ℚ × Option ℚ), lrValid x →
        (rc.state = "down" ∨ rc.state = "up") →
        lrLeave rc.state x = false → (stepLR x rc).dwell = 0)
    ∧ (runSquat ⟨"squat", 0, "", 0, 0⟩
        [(170,170),(100,100),(100,100),(170,170),(170,170),(170,170)]).reps = 0 :=
  ⟨squat_transition_needs_three, squat_fail_resets,
   sts_transition_needs_three, sts_fail_resets,
   lr_transition_needs_three, lr_fail_resets, by decide⟩

/-- C2 witness: the squat transition clause applied to the concrete run
that sits in phase "up" with dwell 2 after [(170,170),(100,100),(100,100)]
and then receives the third consecutive below-120 frame (100,100). -/
theorem C2_dwell_gate_w :
    squatLeave (runSquat ⟨"squat", 0, "", 0, 0⟩
        [(170,170),(100,100),(100,100)]).state ((100 : ℚ), (100 : ℚ)) = true
    ∧ 3 ≤ trailCount (squatLeave (runSquat ⟨"squat", 0, "", 0, 0⟩
        [(170,170),(100,100),(100,100)]).state)
        ([(170,170),(100,100),(100,100)] ++ [((100 : ℚ), (100 : ℚ))]) :=
  C2_dwell_gate.1 ⟨"squat", 0, "", 0, 0⟩ [(170,170),(100,100),(100,100)]
    ((100 : ℚ), (100 : ℚ)) rfl (Or.inl (by decide)) (by decide)
